import Mathlib

/-!
Verification development for hypr-showkey, a reader/viewer of Hyprland
keybinding configuration.

Strings of the Rust source are modelled as `List Char`; the parser
(`src/parser.rs`) and the interactive-state operations (`src/tui.rs`) are
embedded as executable Lean functions below, mirroring the source
function-by-function.  Machine integers that can go negative (the
parenthesis depth counter, fuzzy-match scores) are `Int`; all other
counters are `Nat` (Rust `usize`, whose `saturating_sub` is `Nat`
subtraction).
-/

namespace Showkey

/-- Whitespace test used by `trim`, matching `char::is_whitespace` on the
ASCII characters that occur in configuration files. -/
def isWs (c : Char) : Bool :=
  c = ' ' || c = '\t' || c = '\n' || c = '\r'

/-- Rust `str::trim`: drop leading and trailing whitespace. -/
def trim (l : List Char) : List Char :=
  (((l.dropWhile isWs).reverse).dropWhile isWs).reverse

/-- Rust `str::to_lowercase`, restricted to the per-character lowering that
is the identity beyond ASCII. -/
def toLowerL (l : List Char) : List Char :=
  l.map Char.toLower

/-- Rust `str::contains(pat)`: `pat` occurs as a contiguous substring. -/
def containsSub (pat : List Char) : List Char → Bool
  | [] => pat.isEmpty
  | c :: rest => List.isPrefixOf pat (c :: rest) || containsSub pat rest

/-- Rust `str::split_whitespace`: maximal runs of non-whitespace, with the
word accumulated in reverse in `cur`. -/
def splitWsGo : List Char → List Char → List (List Char)
  | [], cur => if cur.isEmpty then [] else [cur.reverse]
  | c :: rest, cur =>
    if isWs c then
      if cur.isEmpty then splitWsGo rest []
      else cur.reverse :: splitWsGo rest []
    else splitWsGo rest (c :: cur)

def splitWs (l : List Char) : List (List Char) :=
  splitWsGo l []

/-- Rust `str::replace(pat, repl)`: left-to-right, non-overlapping
replacement of every occurrence of `pat` (the patterns used by the source
are non-empty).  The recursion is driven by a fuel bounded below by the
input length; every step consumes at least one character, so the
fuel-exhausted branch (which returns the rest unchanged) is never
reached. -/
def replaceGo (pat repl : List Char) : Nat → List Char → List Char
  | _, [] => []
  | 0, l => l
  | fuel + 1, c :: rest =>
    if pat ≠ [] ∧ List.isPrefixOf pat (c :: rest) then
      repl ++ replaceGo pat repl fuel ((c :: rest).drop pat.length)
    else
      c :: replaceGo pat repl fuel rest

def replaceList (pat repl l : List Char) : List Char :=
  replaceGo pat repl l.length l

/-- The comment split of `parse_bind_line` (`line.find('#')` followed by
slicing): returns the text before the first `'#'` and, when a `'#'`
exists, the text after it. -/
def splitAtComment : List Char → List Char × Option (List Char)
  | [] => ([], none)
  | c :: rest =>
    if c = '#' then ([], some rest)
    else
      let p := splitAtComment rest
      (c :: p.1, p.2)

/-- Rust `str::lines`: split on `'\n'`, strip one trailing `'\r'` from each
line, and do not yield a final empty line produced by a trailing newline. -/
def stripCr (l : List Char) : List Char :=
  match l.getLast? with
  | some '\r' => l.dropLast
  | _ => l

def linesOf (s : List Char) : List (List Char) :=
  let chunks := (List.splitOn '\n' s).map stripCr
  match chunks.getLast? with
  | some [] => chunks.dropLast
  | _ => chunks

/-- The field-closing step of `split_bind_parts`: push `current.trim()`
unless it is empty after trimming. -/
def pushField (current : List Char) (parts : List (List Char)) : List (List Char) :=
  if (trim current).isEmpty then parts else parts ++ [trim current]

/-- One step state of `split_bind_parts`: remaining input, `in_quotes`,
`paren_depth` (an `i32` in the source, hence `Int`), the field being
accumulated, and the fields already produced. -/
def splitGo : List Char → Bool → Int → List Char → List (List Char) → List (List Char)
  | [], _, _, current, parts => pushField current parts
  | ch :: rest, inQuotes, parenDepth, current, parts =>
    if ch = '"' then
      splitGo rest (!inQuotes) parenDepth (current ++ [ch]) parts
    else if ch = '(' then
      splitGo rest inQuotes (parenDepth + 1) (current ++ [ch]) parts
    else if ch = ')' then
      splitGo rest inQuotes (parenDepth - 1) (current ++ [ch]) parts
    else if ch = ',' && !inQuotes && parenDepth = 0 then
      splitGo rest inQuotes parenDepth [] (pushField current parts)
    else
      splitGo rest inQuotes parenDepth (current ++ [ch]) parts

/-- `HyprlandParser::split_bind_parts`: comma split that ignores commas
inside double quotes or at non-zero parenthesis depth, trimming each field
and dropping fields that are empty after trimming. -/
def split_bind_parts (content : List Char) : List (List Char) :=
  splitGo content false 0 [] []

/-- A category from `config.rs` (`Category`): display name, free-text
description and the keyword list used for classification. -/
structure Category where
  name : List Char
  description : List Char
  keywords : List (List Char)
deriving DecidableEq, Repr

/-- `config.rs` `UiSettings`, restricted to the fields the embedded logic
reads (`search_threshold` is unused by the matcher, and the theme and
display flags only affect drawing). -/
structure UiSettings where
  show_descriptions : Bool
  show_raw_command : Bool
  max_results : Nat
deriving DecidableEq, Repr

/-- `config.rs` `Config`, restricted to the fields the parser and the
interactive state read.  The `HashMap<String, Category>` is modelled as an
association list whose order is the map's (unspecified) iteration order;
`hyprland_configs` path resolution is external I/O and appears only as the
path list handed to `parse`. -/
structure Config where
  categories : List (List Char × Category)
  ui : UiSettings
deriving DecidableEq, Repr

/-- `parser.rs` `Keybinding`. -/
structure Keybinding where
  key : List Char
  action : List Char
  description : List Char
  category : List Char
  raw_command : List Char
deriving DecidableEq, Repr

/-- `HyprlandParser::format_key_combination`. -/
def format_key_combination (modifiersAndKey : List Char) : List Char :=
  let formatted :=
    replaceList ("$shiftMod".toList) ("Shift".toList)
      (replaceList ("$mainMod".toList) ("Super".toList) modifiersAndKey)
  let parts := splitWs formatted
  match parts with
  | [] => "Unknown".toList
  | [p] => p
  | p :: q :: rest =>
    let ps := p :: q :: rest
    let modifiers := ps.dropLast
    let key := ps.getLast (by simp)
    let modifierString := List.intercalate (" + ".toList) modifiers
    modifierString ++ " + ".toList ++ key

/-- `HyprlandParser::generate_description`. -/
def generate_description (action params : List Char) : List Char :=
  if action = "exec".toList then
    if containsSub ("terminal".toList) params then "Open terminal".toList
    else if containsSub ("browser".toList) params then "Open browser".toList
    else if containsSub ("filemanager".toList) params then "Open file manager".toList
    else "Execute: ".toList ++ params
  else if action = "killactive".toList then "Kill active window".toList
  else if action = "fullscreen".toList then
    if params = "0".toList then "Toggle fullscreen".toList
    else "Maximize window".toList
  else if action = "togglefloating".toList then "Toggle floating mode".toList
  else if action = "workspace".toList then "Switch to workspace ".toList ++ params
  else if action = "movetoworkspace".toList then "Move window to workspace ".toList ++ params
  else trim (action ++ [' '] ++ params)

/-- `HyprlandParser::determine_category`: first configured category (in the
map's iteration order) with a case-insensitive keyword hit against
`"{action} {params} {description}"`, defaulting to `"Other"`. -/
def determine_category (cfg : Config) (action params description : List Char) : List Char :=
  let searchText := toLowerL (action ++ [' '] ++ params ++ [' '] ++ description)
  match cfg.categories.find?
      (fun entry => entry.2.keywords.any
        (fun keyword => containsSub (toLowerL keyword) searchText)) with
  | some entry => entry.2.name
  | none => "Other".toList

/-- Rust `str::strip_prefix` as used with `?` in `parse_bind_line`. -/
def stripPre (pre l : List Char) : Option (List Char) :=
  if List.isPrefixOf pre l then some (l.drop pre.length) else none

/-- `HyprlandParser::parse_bind_line`. -/
def parse_bind_line (cfg : Config) (line : List Char) : Option Keybinding :=
  let pc := splitAtComment line
  let bindPart := trim pc.1
  let comment := pc.2.map trim
  if !(List.isPrefixOf ("bind".toList) bindPart) then none
  else if List.isPrefixOf ("unbind".toList) bindPart then none
  else
    let afterBind? :=
      if List.isPrefixOf ("binde".toList) bindPart then stripPre ("binde".toList) bindPart
      else if List.isPrefixOf ("bindm".toList) bindPart then stripPre ("bindm".toList) bindPart
      else stripPre ("bind".toList) bindPart
    afterBind?.bind (fun afterBind =>
      let bc := trim afterBind
      let bindContent := if bc.head? = some '=' then trim (bc.drop 1) else bc
      let parts := split_bind_parts bindContent
      if parts.length < 3 then none
      else
        let modifiers := trim (parts.getD 0 [])
        let key := trim (parts.getD 1 [])
        let action := trim (parts.getD 2 [])
        let params :=
          if parts.length > 3 then trim (List.intercalate [','] (parts.drop 3))
          else []
        let modifiersAndKey :=
          if modifiers.isEmpty then key else modifiers ++ [' '] ++ key
        if action.isEmpty then none
        else
          let formattedKey := format_key_combination modifiersAndKey
          let description :=
            match comment with
            | some c => c
            | none => generate_description action params
          let category := determine_category cfg action params description
          let fullAction :=
            if params.isEmpty then action else action ++ [',', ' '] ++ params
          some { key := formattedKey
                 action := fullAction
                 description := description
                 category := category
                 raw_command := "bind = ".toList ++ bindContent })

/-- The loop body of `HyprlandParser::parse_file` for one (already
`lines()`-split) physical line: skip blanks and full-line comments that do
not mention `bind`, then try `parse_bind_line` on the trimmed line. -/
def processLine (cfg : Config) (rawLine : List Char) : Option Keybinding :=
  if (trim rawLine).isEmpty ||
      ((trim rawLine).head? = some '#' &&
        !(containsSub ("bind".toList) (trim rawLine))) then
    none
  else
    parse_bind_line cfg (trim rawLine)

/-- `HyprlandParser::parse_file`, given the file's content (the
`fs::read_to_string` I/O boundary is the `read` argument of `parse`). -/
def parse_file (cfg : Config) (content : List Char) : List Keybinding :=
  (linesOf content).filterMap (processLine cfg)

/-- `HyprlandParser::parse`: `read` models `fs::read_to_string` over the
resolved path list (`none` = read failure); the first failing file aborts
the pass with an error carrying that path. -/
def parse (cfg : Config) (read : List Char → Option (List Char)) :
    List (List Char) → Except (List Char) (List Keybinding)
  | [] => .ok []
  | p :: rest =>
    match read p with
    | none => .error p
    | some content =>
      match parse cfg read rest with
      | .error q => .error q
      | .ok ks => .ok (parse_file cfg content ++ ks)

/-! Concrete configurations used by the claim theorems. -/

/-- A configuration with no categories and the default UI settings. -/
def plainConfig : Config :=
  { categories := []
    ui := { show_descriptions := true, show_raw_command := false, max_results := 50 } }

/-- The category configuration of the end-to-end scenario:
`{term: {name: "Apps", keywords: ["kitty"]}}`. -/
def appsConfig : Config :=
  { categories :=
      [("term".toList,
        { name := "Apps".toList, description := [], keywords := ["kitty".toList] })]
    ui := { show_descriptions := true, show_raw_command := false, max_results := 50 } }

end Showkey

namespace Showkey

/-!
The interactive state of `tui.rs`.  A `ratatui` `ListState` selection is
an `Option Nat`; the fuzzy matcher (`SkimMatcherV2::fuzzy_match`, an
external crate) is abstracted as a scoring function
`List Char → List Char → Option Int`; rendering and the terminal are
outside the model.  The `categories` map built by `build_categories` is
never read by any of the state transitions and is omitted.
-/
structure App where
  keybindings : List Keybinding
  filtered_keybindings : List (Nat × Keybinding)
  search_query : List Char
  list_state : Option Nat
  config : Config
  columns : Nat
  column_lists : List (Option Nat)
deriving DecidableEq, Repr

/-- Type of the abstracted `fuzzy_match` scorer: given the haystack and
the query, an optional score (higher is better, `none` is no match). -/
def Matcher : Type := List Char → List Char → Option Int

/-- `App::new`: the initial view enumerates all keybindings in parse
order; the selections are set to `Some(0)` unconditionally. -/
def App.new (keybindings : List Keybinding) (config : Config) : App :=
  { keybindings := keybindings
    filtered_keybindings := keybindings.enum
    search_query := []
    list_state := some 0
    config := config
    columns := 1
    column_lists := [some 0] }

/-- `App::get_items_per_column`: `ceil(filtered_len / columns)` computed
as `(filtered_len + columns - 1) / columns`, with a zero guard. -/
def App.get_items_per_column (s : App) : Nat :=
  if s.columns = 0 then 0
  else (s.filtered_keybindings.length + s.columns - 1) / s.columns

/-- `App::get_current_column`. -/
def App.get_current_column (s : App) : Nat :=
  match s.list_state with
  | some selected =>
    if s.get_items_per_column > 0 then selected / s.get_items_per_column else 0
  | none => 0

/-- `App::get_current_row_in_column`. -/
def App.get_current_row_in_column (s : App) : Nat :=
  match s.list_state with
  | some selected =>
    if s.get_items_per_column > 0 then selected % s.get_items_per_column else 0
  | none => 0

/-- `App::update_column_selection`: clear every per-column cursor, then
set the cursor of the column owning the flat selection (bounds-guarded,
as in the source). -/
def App.update_column_selection (s : App) : App :=
  let currentColumn := s.get_current_column
  let currentRow := s.get_current_row_in_column
  let cleared := s.column_lists.map (fun _ => (none : Option Nat))
  { s with column_lists :=
      if currentColumn < cleared.length then
        cleared.set currentColumn (some currentRow)
      else cleared }

/-- `App::next`. -/
def App.next (s : App) : App :=
  if s.filtered_keybindings.isEmpty then s
  else
    let i :=
      match s.list_state with
      | some i =>
        if i ≥ s.filtered_keybindings.length - 1 then 0 else i + 1
      | none => 0
    App.update_column_selection { s with list_state := some i }

/-- `App::previous`. -/
def App.previous (s : App) : App :=
  if s.filtered_keybindings.isEmpty then s
  else
    let i :=
      match s.list_state with
      | some i =>
        if i = 0 then s.filtered_keybindings.length - 1 else i - 1
      | none => 0
    App.update_column_selection { s with list_state := some i }

/-- The stable insertion step of `sort_by(|a, b| b.2.cmp(&a.2))`:
descending by score, with earlier elements kept first on ties. -/
def insertByScoreDesc (x : Nat × Keybinding × Int) :
    List (Nat × Keybinding × Int) → List (Nat × Keybinding × Int)
  | [] => [x]
  | y :: ys => if x.2.2 > y.2.2 then x :: y :: ys else y :: insertByScoreDesc x ys

/-- `Vec::sort_by` with the comparator `|a, b| b.2.cmp(&a.2)` (a stable
sort, descending by score). -/
def sortByScoreDesc : List (Nat × Keybinding × Int) → List (Nat × Keybinding × Int)
  | [] => []
  | x :: xs => insertByScoreDesc x (sortByScoreDesc xs)

/-- The view computation of `App::filter_keybindings`: the identity
enumeration for an empty query, otherwise the scored, sorted and capped
match list. -/
def App.compute_filtered (matcher : Matcher) (s : App) : List (Nat × Keybinding) :=
  if s.search_query.isEmpty then s.keybindings.enum
  else
    ((sortByScoreDesc (s.keybindings.enum.filterMap (fun ik =>
        (matcher (ik.2.key ++ [' '] ++ ik.2.action ++ [' '] ++ ik.2.description)
            s.search_query).map
          (fun score => (ik.1, ik.2, score))))).take s.config.ui.max_results).map
      (fun t => (t.1, t.2.1))

/-- The selection-reset tail of `App::filter_keybindings`: store the new
view, clear every per-column cursor, and select index 0 (flat and in
column 0) exactly when the new view is non-empty. -/
def App.apply_filter_selection (s : App) (filtered : List (Nat × Keybinding)) : App :=
  let cleared := s.column_lists.map (fun _ => (none : Option Nat))
  if filtered.isEmpty then
    { s with filtered_keybindings := filtered
             list_state := none
             column_lists := cleared }
  else
    { s with filtered_keybindings := filtered
             list_state := some 0
             column_lists :=
               if cleared.isEmpty then cleared else cleared.set 0 (some 0) }

/-- `App::filter_keybindings`, with the external fuzzy matcher as a
parameter. -/
def App.filter_keybindings (matcher : Matcher) (s : App) : App :=
  App.apply_filter_selection s (App.compute_filtered matcher s)

/-- `App::calculate_columns`: `max(1, (width.saturating_sub(4)) / 50)`
columns (`Nat` subtraction is Rust's `saturating_sub`); when the count
changes, the per-column cursors are rebuilt from scratch with the
selection at row 0 of column 0 if the view is non-empty. -/
def App.calculate_columns (s : App) (terminal_width : Nat) : App :=
  let min_column_width := 50
  let new_columns := max ((terminal_width - 4) / min_column_width) 1
  if new_columns ≠ s.columns then
    let fresh := List.replicate new_columns (none : Option Nat)
    { s with columns := new_columns
             column_lists :=
               if !s.filtered_keybindings.isEmpty then fresh.set 0 (some 0)
               else fresh }
  else s

/-- The per-column-selection invariant of §4.5: the flat cursor is set,
exactly one per-column cursor is non-empty, and the selected column and
in-column row recombine to the flat cursor through `items_per_column`. -/
def selectionConsistent (t : App) : Prop :=
  ∃ flat c r,
    t.list_state = some flat ∧
    t.column_lists[c]? = some (some r) ∧
    (∀ j, j < t.column_lists.length → j ≠ c → t.column_lists[j]? = some none) ∧
    c * t.get_items_per_column + r = flat

/-! Concrete data used by witnesses and counterexamples. -/

/-- A matcher that never matches (the empty-query code path never consults
the matcher, so any instance serves there). -/
def noMatcher : Matcher := fun _ _ => none

def kb0 : Keybinding :=
  { key := "Super + Q".toList
    action := "killactive".toList
    description := "Kill active window".toList
    category := "Other".toList
    raw_command := "bind = SUPER, Q, killactive".toList }

def kb1 : Keybinding :=
  { key := "Super + Return".toList
    action := "exec, kitty".toList
    description := "Open terminal".toList
    category := "Apps".toList
    raw_command := "bind = SUPER, Return, exec, kitty".toList }

/-- A fresh interactive state over two keybindings. -/
def demoApp : App := App.new [kb0, kb1] plainConfig

/-- A configuration whose `max_results` is 1. -/
def cap1Config : Config :=
  { categories := []
    ui := { show_descriptions := true, show_raw_command := false, max_results := 1 } }

/-- A fresh interactive state over two keybindings with `max_results = 1`. -/
def capApp : App := App.new [kb0, kb1] cap1Config

/-- A fresh state over zero keybindings with a pending one-letter query. -/
def emptyQueryApp : App :=
  { App.new [] plainConfig with search_query := "x".toList }

/-- `capApp` with a pending non-empty query. -/
def queryCapApp : App :=
  { capApp with search_query := "z".toList }

/-- A `fs::read_to_string` stand-in on which every read fails. -/
def readFail : List Char → Option (List Char) := fun _ => none

end Showkey

namespace Showkey

/-! Lemmas about the structure-aware splitter. -/

theorem pushField_mem_ne_nil {current : List Char} {parts : List (List Char)}
    (h : ∀ p ∈ parts, p ≠ []) : ∀ p ∈ pushField current parts, p ≠ [] := by
  intro p hp
  unfold pushField at hp
  split at hp
  · exact h p hp
  · rename_i hne
    rcases List.mem_append.1 hp with hm | hm
    · exact h p hm
    · simp only [List.mem_singleton] at hm
      subst hm
      intro hnil
      rw [hnil] at hne
      simp at hne

theorem splitGo_mem_ne_nil (l : List Char) :
    ∀ inq : Bool, ∀ d : Int, ∀ current : List Char, ∀ parts : List (List Char),
      (∀ p ∈ parts, p ≠ []) → ∀ p ∈ splitGo l inq d current parts, p ≠ [] := by
  induction l with
  | nil =>
    intro inq d current parts hparts p hp
    exact pushField_mem_ne_nil hparts p hp
  | cons c rest ih =>
    intro inq d current parts hparts p hp
    unfold splitGo at hp
    split at hp
    · exact ih _ _ _ _ hparts p hp
    · split at hp
      · exact ih _ _ _ _ hparts p hp
      · split at hp
        · exact ih _ _ _ _ hparts p hp
        · split at hp
          · exact ih _ _ _ _ (pushField_mem_ne_nil hparts) p hp
          · exact ih _ _ _ _ hparts p hp

end Showkey

namespace Showkey

/-!  The claim theorems. -/

/-- C1.  End-to-end scenario: a file holding exactly the line
`bind = $mainMod, Return, exec, kitty # Open terminal`, parsed under the
category configuration `{term: {name: "Apps", keywords: ["kitty"]}}`,
yields exactly one record, with key `Super + Return`, action
`exec, kitty`, description `Open terminal` and category `Apps`. -/
theorem c1_end_to_end :
    parse_file appsConfig ("bind = $mainMod, Return, exec, kitty # Open terminal".toList) =
      [{ key := "Super + Return".toList
         action := "exec, kitty".toList
         description := "Open terminal".toList
         category := "Apps".toList
         raw_command := "bind = $mainMod, Return, exec, kitty".toList }] := by
  decide

/-- C2, counterexample.  The claim states that a bind line with an empty
modifiers field, such as `bind = , Escape, exec, firefox`, produces a
record whose key is the bare key token `Escape`; in fact the splitter
drops the empty field, the remaining fields shift left, and the produced
key is `Escape + exec`. -/
theorem c2_empty_modifiers_counterexample :
    (parse_bind_line plainConfig ("bind = , Escape, exec, firefox".toList)).map
        Keybinding.key = some ("Escape + exec".toList) ∧
      some ("Escape + exec".toList) ≠ some ("Escape".toList) := by
  constructor
  · decide
  · decide

/-- C2, amended.  `bind = SUPER SHIFT, Q, killactive` yields key
`SUPER + SHIFT + Q`; a bind line whose modifiers field is empty does not
yield its bare key token, because the empty field is dropped and the later
fields shift one place left: a four-field line such as
`bind = , Escape, exec, firefox` yields key `Escape + exec`, and a
three-field one such as `bind = , Escape, killactive` is rejected
entirely. -/
theorem c2_key_formatting :
    (parse_bind_line plainConfig ("bind = SUPER SHIFT, Q, killactive".toList)).map
        Keybinding.key = some ("SUPER + SHIFT + Q".toList) ∧
      (parse_bind_line plainConfig ("bind = , Escape, exec, firefox".toList)).map
        Keybinding.key = some ("Escape + exec".toList) ∧
      parse_bind_line plainConfig ("bind = , Escape, killactive".toList) = none := by
  refine ⟨by decide, by decide, by decide⟩

/-- C4.  Structure-aware splitting: in
`bind = SUPER, R, exec, myprog --flag="a,b"` the comma inside the quoted
span does not delimit, so the third field is `exec` and the whole quoted
argument stays one params field; likewise a comma inside balanced
parentheses, as in `bind = SUPER, R, exec, grp(a,b) c`, does not
delimit. -/
theorem c4_structure_aware_split :
    split_bind_parts ("SUPER, R, exec, myprog --flag=\"a,b\"".toList) =
        ["SUPER".toList, "R".toList, "exec".toList, "myprog --flag=\"a,b\"".toList] ∧
      (parse_bind_line plainConfig
          ("bind = SUPER, R, exec, myprog --flag=\"a,b\"".toList)).map
          Keybinding.action =
        some ("exec, myprog --flag=\"a,b\"".toList) ∧
      split_bind_parts ("SUPER, R, exec, grp(a,b) c".toList) =
        ["SUPER".toList, "R".toList, "exec".toList, "grp(a,b) c".toList] := by
  refine ⟨by decide, by decide, by decide⟩

/-- On a line whose first character is the comment marker, the comment
split leaves an empty directive body, which fails the `bind` prefix test:
`parse_bind_line` rejects it outright. -/
theorem parse_bind_line_hash_head (cfg : Config) (rest : List Char) :
    parse_bind_line cfg ('#' :: rest) = none := rfl

/-- C9.  Every line whose trimmed form begins with `'#'` produces zero
records, even when it survives the full-line-comment skip heuristic by
containing the word `bind`: the comment split then leaves an empty
directive body, and `parse_bind_line` rejects the line. -/
theorem c9_comment_lines_no_record (cfg : Config) (line : List Char)
    (h : (trim line).head? = some '#') : processLine cfg line = none := by
  unfold processLine
  cases ht : trim line with
  | nil => rw [ht] at h; simp at h
  | cons c rest =>
    rw [ht] at h
    simp only [List.head?_cons, Option.some.injEq] at h
    subst h
    cases hb : containsSub ("bind".toList) ('#' :: rest) with
    | true => simp [hb, parse_bind_line_hash_head]
    | false => simp [hb]

/-- Witness for C9 at the concrete line `# bind = SUPER, Q, killactive`. -/
theorem c9_comment_lines_no_record_witness :
    (trim ("# bind = SUPER, Q, killactive".toList)).head? = some '#' ∧
      processLine plainConfig ("# bind = SUPER, Q, killactive".toList) = none :=
  ⟨by decide, c9_comment_lines_no_record plainConfig _ (by decide)⟩

/-- C10.  The structure-aware splitter only ever returns fields that are
non-empty (each pushed field is its own trim, and fields empty after
trimming are dropped); consequently an empty field between two
consecutive commas disappears and the later fields shift left, as the
concrete split of `, Escape, exec, foo` shows. -/
theorem c10_splitter_drops_empty_fields :
    (∀ content : List Char, ∀ p ∈ split_bind_parts content, p ≠ []) ∧
      split_bind_parts (", Escape, exec, foo".toList) =
        ["Escape".toList, "exec".toList, "foo".toList] := by
  constructor
  · intro content p hp
    exact splitGo_mem_ne_nil content false 0 [] [] (by simp) p hp
  · decide

/-- Witness for C10: the first field of the concrete split is non-empty. -/
theorem c10_splitter_drops_empty_fields_witness :
    ("Escape".toList : List Char) ≠ [] :=
  c10_splitter_drops_empty_fields.1 (", Escape, exec, foo".toList)
    ("Escape".toList) (by decide)

end Showkey

namespace Showkey

/-! Helper lemmas about the layout arithmetic and the state machine. -/

theorem get_items_per_column_eq (s : App) (hc : s.columns ≠ 0) :
    App.get_items_per_column s =
      (s.filtered_keybindings.length + s.columns - 1) / s.columns := by
  unfold App.get_items_per_column
  rw [if_neg hc]

theorem length_le_columns_mul_ipc (s : App) (hc : 0 < s.columns) :
    s.filtered_keybindings.length ≤ s.columns * App.get_items_per_column s := by
  rw [get_items_per_column_eq s (Nat.pos_iff_ne_zero.1 hc),
    ← Nat.ceilDiv_eq_add_pred_div]
  simpa [smul_eq_mul] using
    le_smul_ceilDiv (b := s.filtered_keybindings.length) hc

theorem ipc_le_of_le_mul (s : App) (hc : 0 < s.columns) (k : Nat)
    (hk : s.filtered_keybindings.length ≤ s.columns * k) :
    App.get_items_per_column s ≤ k := by
  rw [get_items_per_column_eq s (Nat.pos_iff_ne_zero.1 hc),
    ← Nat.ceilDiv_eq_add_pred_div]
  exact (ceilDiv_le_iff_le_smul hc).2 (by simpa [smul_eq_mul] using hk)

theorem ipc_pos (s : App) (hc : 0 < s.columns)
    (hf : s.filtered_keybindings ≠ []) : 0 < App.get_items_per_column s := by
  rw [get_items_per_column_eq s (Nat.pos_iff_ne_zero.1 hc)]
  have hl : 0 < s.filtered_keybindings.length := List.length_pos.2 hf
  exact (Nat.le_div_iff_mul_le hc).2 (by omega)

theorem update_column_selection_list_state (t : App) :
    (App.update_column_selection t).list_state = t.list_state := rfl

theorem update_column_selection_consistent (s : App) (i : Nat)
    (hc : 0 < s.columns) (hlen : s.column_lists.length = s.columns)
    (hi : i < s.filtered_keybindings.length) :
    selectionConsistent
      (App.update_column_selection { s with list_state := some i }) := by
  have hfne : s.filtered_keybindings ≠ [] := by
    intro h
    rw [h] at hi
    simp at hi
  have hipc : 0 < App.get_items_per_column s := ipc_pos s hc hfne
  have hipc' : 0 <
      App.get_items_per_column { s with list_state := some i } := hipc
  have hcb : i / App.get_items_per_column s < s.columns := by
    rw [Nat.div_lt_iff_lt_mul hipc]
    exact lt_of_lt_of_le hi (length_le_columns_mul_ipc s hc)
  refine ⟨i, i / App.get_items_per_column s, i % App.get_items_per_column s,
    rfl, ?_, ?_, ?_⟩
  · show ((App.update_column_selection
        { s with list_state := some i }).column_lists)[_]? = _
    unfold App.update_column_selection App.get_current_column
      App.get_current_row_in_column
    simp only [if_pos hipc', List.length_map]
    rw [if_pos (by simpa [hlen] using hcb)]
    exact List.getElem?_set_eq_of_lt _ (by simpa [hlen] using hcb)
  · intro j hj hjne
    show ((App.update_column_selection
        { s with list_state := some i }).column_lists)[j]? = _
    unfold App.update_column_selection App.get_current_column
      App.get_current_row_in_column at hj ⊢
    simp only [if_pos hipc', List.length_map] at hj ⊢
    rw [if_pos (by simpa [hlen] using hcb)] at hj ⊢
    rw [List.getElem?_set_ne (by simpa using (Ne.symm hjne))]
    rw [List.getElem?_map]
    rw [List.length_set, List.length_map] at hj
    rw [List.getElem?_eq_getElem hj]
    rfl
  · show i / App.get_items_per_column s *
        App.get_items_per_column ((App.update_column_selection
          { s with list_state := some i })) + i % App.get_items_per_column s = i
    rw [show App.get_items_per_column ((App.update_column_selection
        { s with list_state := some i })) = App.get_items_per_column s from rfl]
    rw [Nat.mul_comm]
    exact Nat.div_add_mod i (App.get_items_per_column s)

end Showkey

namespace Showkey

theorem apply_filter_selection_filtered (s : App)
    (filtered : List (Nat × Keybinding)) :
    (App.apply_filter_selection s filtered).filtered_keybindings = filtered := by
  unfold App.apply_filter_selection
  split <;> rfl

theorem filter_keybindings_filtered (matcher : Matcher) (s : App) :
    (App.filter_keybindings matcher s).filtered_keybindings =
      App.compute_filtered matcher s :=
  apply_filter_selection_filtered s (App.compute_filtered matcher s)

theorem apply_filter_selection_consistent (s : App)
    (filtered : List (Nat × Keybinding)) (hcl : s.column_lists ≠ []) :
    (filtered ≠ [] →
        selectionConsistent (App.apply_filter_selection s filtered)) ∧
      (filtered = [] →
        ∀ j, j < (App.apply_filter_selection s filtered).column_lists.length →
          (App.apply_filter_selection s filtered).column_lists[j]? = some none) := by
  have hcll : 0 < s.column_lists.length := List.length_pos.2 hcl
  cases hf : filtered with
  | nil =>
    subst hf
    refine ⟨fun h => absurd rfl h, fun _ j hj => ?_⟩
    unfold App.apply_filter_selection at hj ⊢
    simp only [List.isEmpty_nil, if_true] at hj ⊢
    rw [List.length_map] at hj
    rw [List.getElem?_map, List.getElem?_eq_getElem hj]
    rfl
  | cons a t =>
    subst hf
    refine ⟨fun _ => ?_, fun h => by simp at h⟩
    have hclm : (s.column_lists.map
        (fun _ => (none : Option Nat))).isEmpty = false := by
      cases hm : s.column_lists with
      | nil => exact absurd hm hcl
      | cons b u => rfl
    have hcond : ¬((s.column_lists.map
        (fun _ => (none : Option Nat))).isEmpty = true) := by
      rw [hclm]
      exact Bool.false_ne_true
    have hcons : ¬(((a :: t : List (Nat × Keybinding)).isEmpty) = true) := by
      simp
    refine ⟨0, 0, 0, ?_, ?_, ?_, ?_⟩
    · unfold App.apply_filter_selection
      rw [if_neg hcons]
    · unfold App.apply_filter_selection
      rw [if_neg hcons]
      show ((if (s.column_lists.map (fun _ => (none : Option Nat))).isEmpty = true
          then s.column_lists.map (fun _ => (none : Option Nat))
          else (s.column_lists.map (fun _ => (none : Option Nat))).set 0
            (some 0)))[(0 : Nat)]? = some (some 0)
      rw [if_neg hcond]
      exact List.getElem?_set_eq_of_lt _ (by simpa using hcll)
    · intro j hj hjne
      unfold App.apply_filter_selection at hj ⊢
      rw [if_neg hcons] at hj ⊢
      show ((if (s.column_lists.map (fun _ => (none : Option Nat))).isEmpty = true
          then s.column_lists.map (fun _ => (none : Option Nat))
          else (s.column_lists.map (fun _ => (none : Option Nat))).set 0
            (some 0)))[j]? = some none
      rw [if_neg hcond] at hj ⊢
      rw [List.getElem?_set_ne (Ne.symm hjne)]
      rw [List.length_set, List.length_map] at hj
      rw [List.getElem?_map, List.getElem?_eq_getElem hj]
      rfl
    · simp

theorem next_eq_update (s : App) (hne : s.filtered_keybindings ≠ []) :
    ∃ i, i < s.filtered_keybindings.length ∧
      App.next s = App.update_column_selection { s with list_state := some i } := by
  have hlen : 0 < s.filtered_keybindings.length := List.length_pos.2 hne
  have hne' : s.filtered_keybindings.isEmpty = false := by
    cases hm : s.filtered_keybindings with
    | nil => exact absurd hm hne
    | cons a t => rfl
  cases hsel : s.list_state with
  | none =>
    exact ⟨0, hlen, by simp [App.next, hne', hsel]⟩
  | some i =>
    refine ⟨if i ≥ s.filtered_keybindings.length - 1 then 0 else i + 1,
      ?_, by simp [App.next, hne', hsel]⟩
    split <;> omega

theorem previous_eq_update (s : App) (hne : s.filtered_keybindings ≠ [])
    (hval : ∀ i, s.list_state = some i → i < s.filtered_keybindings.length) :
    ∃ i, i < s.filtered_keybindings.length ∧
      App.previous s =
        App.update_column_selection { s with list_state := some i } := by
  have hlen : 0 < s.filtered_keybindings.length := List.length_pos.2 hne
  have hne' : s.filtered_keybindings.isEmpty = false := by
    cases hm : s.filtered_keybindings with
    | nil => exact absurd hm hne
    | cons a t => rfl
  cases hsel : s.list_state with
  | none =>
    exact ⟨0, hlen, by simp [App.previous, hne', hsel]⟩
  | some i =>
    have hi := hval i hsel
    refine ⟨if i = 0 then s.filtered_keybindings.length - 1 else i - 1,
      ?_, by simp [App.previous, hne', hsel]⟩
    split <;> omega

end Showkey

namespace Showkey

/-! Helper lemmas about `parse` and `calculate_columns`. -/

theorem parse_ok_of_reads (cfg : Config)
    (read : List Char → Option (List Char)) (paths : List (List Char)) :
    (∀ p ∈ paths, (read p).isSome = true) →
      ∃ records, parse cfg read paths = Except.ok records := by
  induction paths with
  | nil => intro _; exact ⟨[], rfl⟩
  | cons p rest ih =>
    intro h
    obtain ⟨c, hc⟩ :=
      Option.isSome_iff_exists.1 (h p (List.mem_cons_self p rest))
    obtain ⟨rs, hrs⟩ := ih (fun q hq => h q (List.mem_cons_of_mem p hq))
    exact ⟨parse_file cfg c ++ rs, by simp [parse, hc, hrs]⟩

theorem parse_error_mem (cfg : Config)
    (read : List Char → Option (List Char)) (paths : List (List Char)) :
    ∀ e, parse cfg read paths = Except.error e → e ∈ paths ∧ read e = none := by
  induction paths with
  | nil => intro e h; simp [parse] at h
  | cons p rest ih =>
    intro e h
    cases hc : read p with
    | none =>
      rw [show parse cfg read (p :: rest) = Except.error p from by
        simp [parse, hc]] at h
      injection h with h1
      subst h1
      exact ⟨List.mem_cons_self p rest, hc⟩
    | some c =>
      cases hr : parse cfg read rest with
      | error q =>
        rw [show parse cfg read (p :: rest) = Except.error q from by
          simp [parse, hc, hr]] at h
        injection h with h1
        subst h1
        obtain ⟨hm, hn⟩ := ih _ hr
        exact ⟨List.mem_cons_of_mem p hm, hn⟩
      | ok ks =>
        rw [show parse cfg read (p :: rest) =
            Except.ok (parse_file cfg c ++ ks) from by simp [parse, hc, hr]] at h
        exact absurd h (by simp)

theorem parse_error_of_read_failure (cfg : Config)
    (read : List Char → Option (List Char)) (paths : List (List Char)) :
    (∃ p ∈ paths, read p = none) →
      ∃ e, parse cfg read paths = Except.error e := by
  induction paths with
  | nil =>
    rintro ⟨p, hp, _⟩
    exact absurd hp (List.not_mem_nil p)
  | cons p rest ih =>
    rintro ⟨q, hq, hqn⟩
    cases hc : read p with
    | none => exact ⟨p, by simp [parse, hc]⟩
    | some c =>
      have hq' : q ∈ rest := by
        rcases List.mem_cons.1 hq with h1 | h1
        · subst h1
          rw [hc] at hqn
          exact absurd hqn (by simp)
        · exact h1
      obtain ⟨e, he⟩ := ih ⟨q, hq', hqn⟩
      exact ⟨e, by simp [parse, hc, he]⟩

theorem calc_columns_eq (s : App) (w : Nat) :
    (App.calculate_columns s w).columns = max 1 ((w - 4) / 50) := by
  simp only [App.calculate_columns]
  split
  · exact Nat.max_comm _ _
  · rename_i h
    rw [← not_ne_iff.1 h]
    exact Nat.max_comm _ _

end Showkey

namespace Showkey

/-- C3, counterexample.  The claim includes the empty query, but the
empty-query branch returns the whole record list with no cap: with
`max_results = 1` and two keybindings, the empty query yields a Filtered
View of length 2 > 1. -/
theorem c3_filter_cap_counterexample :
    (App.filter_keybindings noMatcher capApp).filtered_keybindings.length = 2 ∧
      ¬((App.filter_keybindings noMatcher capApp).filtered_keybindings.length ≤
        capApp.config.ui.max_results) := by
  constructor
  · decide
  · decide

/-- C3, amended.  For every *non-empty* query and every record list, the
Filtered View has length at most the configured `max_results`; the empty
query instead yields the whole record list, uncapped. -/
theorem c3_filter_cap (matcher : Matcher) (s : App)
    (hq : s.search_query ≠ []) :
    (App.filter_keybindings matcher s).filtered_keybindings.length ≤
      s.config.ui.max_results := by
  rw [filter_keybindings_filtered]
  unfold App.compute_filtered
  have hq' : s.search_query.isEmpty = false := by
    cases hm : s.search_query with
    | nil => exact absurd hm hq
    | cons a t => rfl
  rw [if_neg (by rw [hq']; exact Bool.false_ne_true)]
  rw [List.length_map, List.length_take]
  exact min_le_left _ _

/-- Witness for C3 (amended) at a concrete state with a pending non-empty
query and `max_results = 1`. -/
theorem c3_filter_cap_witness :
    (App.filter_keybindings noMatcher queryCapApp).filtered_keybindings.length ≤
      queryCapApp.config.ui.max_results :=
  c3_filter_cap noMatcher queryCapApp (by decide)

/-- C5, counterexample.  After a filter event that empties the view (here:
a one-letter query over zero keybindings), *zero* per-column cursors are
non-empty, not exactly one. -/
theorem c5_column_invariant_counterexample :
    (App.filter_keybindings noMatcher emptyQueryApp).column_lists.countP
        (fun o => o.isSome) = 0 ∧
      ¬((App.filter_keybindings noMatcher emptyQueryApp).column_lists.countP
        (fun o => o.isSome) = 1) := by
  constructor
  · decide
  · decide

/-- C5, amended.  In a state whose column list matches its column count
(≥ 1) and whose flat cursor, when set, is inside the view: after Advance
or Retreat on a non-empty view, and after a filter event that leaves the
view non-empty, exactly one per-column cursor is non-empty and the
selected column and row satisfy
`column × items_per_column + row = flat_cursor`; a filter event that
empties the view clears every per-column cursor instead. -/
theorem c5_column_invariant (s : App) (matcher : Matcher)
    (hc : 0 < s.columns) (hlen : s.column_lists.length = s.columns)
    (hval : ∀ i, s.list_state = some i → i < s.filtered_keybindings.length) :
    (s.filtered_keybindings ≠ [] →
        selectionConsistent (App.next s) ∧
          selectionConsistent (App.previous s)) ∧
      ((App.filter_keybindings matcher s).filtered_keybindings ≠ [] →
        selectionConsistent (App.filter_keybindings matcher s)) ∧
      ((App.filter_keybindings matcher s).filtered_keybindings = [] →
        ∀ j, j < (App.filter_keybindings matcher s).column_lists.length →
          (App.filter_keybindings matcher s).column_lists[j]? = some none) := by
  have hcl : s.column_lists ≠ [] := by
    intro h
    rw [h] at hlen
    simp at hlen
    omega
  refine ⟨fun hne => ?_, fun hne => ?_, fun hemp => ?_⟩
  · obtain ⟨i, hi, heq⟩ := next_eq_update s hne
    obtain ⟨i', hi', heq'⟩ := previous_eq_update s hne hval
    exact ⟨heq ▸ update_column_selection_consistent s i hc hlen hi,
      heq' ▸ update_column_selection_consistent s i' hc hlen hi'⟩
  · have h1 :=
      (apply_filter_selection_consistent s (App.compute_filtered matcher s) hcl).1
    rw [filter_keybindings_filtered] at hne
    exact h1 hne
  · have h2 :=
      (apply_filter_selection_consistent s (App.compute_filtered matcher s) hcl).2
    rw [filter_keybindings_filtered] at hemp
    exact h2 hemp

/-- Witness for C5 (amended): after Advance on a concrete two-element
state, the column-selection invariant holds. -/
theorem c5_column_invariant_witness : selectionConsistent (App.next demoApp) := by
  have hval : ∀ i, demoApp.list_state = some i →
      i < demoApp.filtered_keybindings.length := by
    intro i h
    have h0 : demoApp.list_state = some 0 := rfl
    rw [h0] at h
    injection h with h1
    subst h1
    decide
  exact ((c5_column_invariant demoApp noMatcher (by decide) (by decide)
    hval).1 (by decide)).1

/-- C6.  On a non-empty view, Advance sends a valid flat cursor `i` to
`(i + 1) mod len` (wrapping from the last index to 0) and Retreat sends it
to `(i + len - 1) mod len` (wrapping from 0 to the last index); on an
empty view with no selection, both leave the state unchanged. -/
theorem c6_navigation_wraps (s : App) :
    (∀ i, s.list_state = some i → i < s.filtered_keybindings.length →
        (App.next s).list_state =
            some ((i + 1) % s.filtered_keybindings.length) ∧
          (App.previous s).list_state =
            some ((i + s.filtered_keybindings.length - 1) %
              s.filtered_keybindings.length)) ∧
      (s.filtered_keybindings = [] → s.list_state = none →
        App.next s = s ∧ App.previous s = s) := by
  constructor
  · intro i hsel hi
    have hlen : 0 < s.filtered_keybindings.length :=
      Nat.lt_of_le_of_lt (Nat.zero_le i) hi
    have hne' : s.filtered_keybindings.isEmpty = false := by
      cases hm : s.filtered_keybindings with
      | nil => rw [hm] at hlen; simp at hlen
      | cons a t => rfl
    constructor
    · rw [show App.next s = App.update_column_selection
          { s with list_state := some (if i ≥ s.filtered_keybindings.length - 1
              then 0 else i + 1) } from by simp [App.next, hne', hsel]]
      rw [update_column_selection_list_state]
      show some (if i ≥ s.filtered_keybindings.length - 1 then 0 else i + 1) =
        some ((i + 1) % s.filtered_keybindings.length)
      by_cases hge : i ≥ s.filtered_keybindings.length - 1
      · have h1 : i + 1 = s.filtered_keybindings.length := by omega
        rw [if_pos hge, h1, Nat.mod_self]
      · rw [if_neg hge, Nat.mod_eq_of_lt (by omega)]
    · rw [show App.previous s = App.update_column_selection
          { s with list_state := some (if i = 0
              then s.filtered_keybindings.length - 1 else i - 1) } from by
        simp [App.previous, hne', hsel]]
      rw [update_column_selection_list_state]
      show some (if i = 0 then s.filtered_keybindings.length - 1 else i - 1) =
        some ((i + s.filtered_keybindings.length - 1) %
          s.filtered_keybindings.length)
      by_cases h0 : i = 0
      · subst h0
        rw [if_pos rfl]
        simp only [Nat.zero_add]
        rw [Nat.mod_eq_of_lt (by omega)]
      · rw [if_neg h0]
        have h2 : i + s.filtered_keybindings.length - 1 =
            (i - 1) + s.filtered_keybindings.length := by omega
        rw [h2, Nat.add_mod_right, Nat.mod_eq_of_lt (by omega)]
  · intro hfk hsel
    have hne' : s.filtered_keybindings.isEmpty = true := by rw [hfk]; rfl
    exact ⟨by simp [App.next, hne'], by simp [App.previous, hne']⟩

/-- Witness for C6 on a concrete two-element state with the cursor at 0:
Advance yields 1 and Retreat wraps to the last index. -/
theorem c6_navigation_wraps_witness :
    (App.next demoApp).list_state =
        some ((0 + 1) % demoApp.filtered_keybindings.length) ∧
      (App.previous demoApp).list_state =
        some ((0 + demoApp.filtered_keybindings.length - 1) %
          demoApp.filtered_keybindings.length) :=
  (c6_navigation_wraps demoApp).1 0 rfl (by decide)

/-- C7.  The layout engine computes
`columns = max(1, floor((w - 4) / 50))`, the subtraction saturating (so
`w < 4` still yields one column), and `items_per_column` is the exact
ceiling of `filtered_count / columns`: the least `k` with
`filtered_count ≤ columns × k`. -/
theorem c7_layout_formulas (s : App) (w : Nat) :
    (App.calculate_columns s w).columns = max 1 ((w - 4) / 50) ∧
      (w < 4 → (App.calculate_columns s w).columns = 1) ∧
      (0 < s.columns →
        s.filtered_keybindings.length ≤
            s.columns * App.get_items_per_column s ∧
          ∀ k, s.filtered_keybindings.length ≤ s.columns * k →
            App.get_items_per_column s ≤ k) := by
  refine ⟨calc_columns_eq s w, fun hw => ?_, fun hc =>
    ⟨length_le_columns_mul_ipc s hc, fun k hk => ipc_le_of_le_mul s hc k hk⟩⟩
  rw [calc_columns_eq s w]
  have h4 : w - 4 = 0 := by omega
  rw [h4]
  decide

/-- Witness for C7: a 3-cell-wide terminal still gets one column, and the
ceiling bound holds on a concrete state. -/
theorem c7_layout_formulas_witness :
    (App.calculate_columns demoApp 3).columns = 1 ∧
      demoApp.filtered_keybindings.length ≤
        demoApp.columns * App.get_items_per_column demoApp :=
  ⟨(c7_layout_formulas demoApp 3).2.1 (by decide),
    ((c7_layout_formulas demoApp 3).2.2 (by decide)).1⟩

/-- C8.  If every configured file reads successfully the parse pass
succeeds; an error outcome always carries one of the offending paths
(whose read failed), and any read failure forces an error outcome, so no
partial record list is ever returned; by contrast a single file parses
successfully whatever its content — malformed lines are merely skipped. -/
theorem c8_read_failure_fatal (cfg : Config)
    (read : List Char → Option (List Char)) (paths : List (List Char)) :
    ((∀ p ∈ paths, (read p).isSome = true) →
        ∃ records, parse cfg read paths = Except.ok records) ∧
      (∀ e, parse cfg read paths = Except.error e →
        e ∈ paths ∧ read e = none) ∧
      ((∃ p ∈ paths, read p = none) →
        ∃ e, parse cfg read paths = Except.error e) ∧
      (∀ q content, read q = some content →
        parse cfg read [q] = Except.ok (parse_file cfg content)) :=
  ⟨parse_ok_of_reads cfg read paths,
   parse_error_mem cfg read paths,
   parse_error_of_read_failure cfg read paths,
   fun _ content hq => by simp [parse, hq]⟩

/-- Witness for C8: with a read function that always fails, the pass on
one path yields an error. -/
theorem c8_read_failure_fatal_witness :
    ∃ e, parse plainConfig readFail ["hyprland.conf".toList] =
      Except.error e :=
  (c8_read_failure_fatal plainConfig readFail
    ["hyprland.conf".toList]).2.2.1
    ⟨"hyprland.conf".toList, List.mem_singleton.2 rfl, rfl⟩

end Showkey
